import Mathlib

/-!
Shallow embedding of the indentation-resolution engine of
`src/rules/indent-helpers/index.ts` (eslint-plugin-svelte), together with
theorems settling the frozen claims about it.

Tokens are modelled by a record carrying a numeric identity (JavaScript
`Map`/`Set` keys are object references; distinct token objects get distinct
ids), their start line/column, end line, and a comment flag.  The offset map
is an association list keyed by token id; the ignore set is a list of token
ids.  JavaScript numbers at the magnitudes used here are exact integers, so
indent arithmetic is modelled with `Int`.  The recursive resolver is given
explicit fuel, since the source has no cycle guard.
-/

namespace SvelteIndent

/-- A source token or comment, as the engine reads it: start line/column,
end line, and whether it is a comment.  `id` models object identity. -/
structure Token where
  id : Nat
  line : Nat
  col : Nat
  endLine : Nat
  isComment : Bool
deriving DecidableEq

/-- One entry of the offset map: either relative to a base token or a
baseline, each with an optional cached expected indent
(`expectedIndent?` in the source). -/
inductive OffsetEntry where
  | relative (baseToken : Nat) (offset : Int) (cache : Option Int)
  | baseline (offset : Int) (cache : Option Int)
deriving DecidableEq

/-- The cached expected indent of an entry (`offsetInfo.expectedIndent`). -/
def cacheOf : OffsetEntry → Option Int
  | .relative _ _ c => c
  | .baseline _ c => c

/-- The offset map `offsets : Map<AnyToken, ...>`, keyed by token id. -/
abbrev Offsets := List (Nat × OffsetEntry)

/-- `Map.set`: overwrite the entry at key `k`. -/
def setEntry (m : Offsets) (k : Nat) (v : OffsetEntry) : Offsets :=
  (k, v) :: m.filter (fun p => p.1 != k)

/-- Normalized rule options (`IndentOptions`). -/
structure IndentOptions where
  indentChar : Char
  indentSize : Int
  switchCase : Int
  ignoredNodes : List String
deriving DecidableEq

/-- User-supplied `indent` option: a number or the string `"tab"`. -/
inductive IndentOptValue where
  | num (n : Int)
  | tab
deriving DecidableEq

/-- User options object (`IndentUserOptions`); absent fields are `none`. -/
structure IndentUserOptions where
  indent : Option IndentOptValue
  switchCase : Option Int
  ignoredNodes : Option (List String)
deriving DecidableEq

/-- `Partial<IndentOptions>`: the per-rule default overrides. -/
structure PartialIndentOptions where
  indentChar : Option Char
  indentSize : Option Int
  switchCase : Option Int
  ignoredNodes : Option (List String)
deriving DecidableEq

/-- The object-spread `{indentChar: " ", indentSize: 2, switchCase: 1,
ignoredNodes: [], ...defaultOptions}`. -/
def spreadDefaults (d : PartialIndentOptions) : IndentOptions :=
  ⟨d.indentChar.getD ' ', d.indentSize.getD 2, d.switchCase.getD 1, d.ignoredNodes.getD []⟩

/-- `parseOptions`: normalize user options over the defaults.  An integer
`indent` sets the size; `"tab"` selects tab characters of size 1.
(`Number.isSafeInteger` holds of every modelled integer.) -/
def parseOptions (options : IndentUserOptions) (defaultOptions : PartialIndentOptions) :
    IndentOptions :=
  let ret := spreadDefaults defaultOptions
  let ret : IndentOptions :=
    match options.indent with
    | some (.num n) => ⟨ret.indentChar, n, ret.switchCase, ret.ignoredNodes⟩
    | some .tab => ⟨'\t', 1, ret.switchCase, ret.ignoredNodes⟩
    | none => ret
  let ret : IndentOptions :=
    match options.switchCase with
    | some n => ⟨ret.indentChar, ret.indentSize, n, ret.ignoredNodes⟩
    | none => ret
  match options.ignoredNodes with
  | some l => ⟨ret.indentChar, ret.indentSize, ret.switchCase, l⟩
  | none => ret

/-- Argument shape of `setOffset`/`copyOffset`/`setOffsetBaseLine`:
`AnyToken | null | undefined | (AnyToken | null | undefined)[]`. -/
inductive TokenArg where
  | one (t : Option Nat)
  | many (ts : List (Option Nat))
deriving DecidableEq

/-- `setOffset` on a single (possibly null) token: null is a no-op, a
self-reference (`token === baseToken`) is silently skipped, otherwise a
relative entry is installed. -/
def setOffsetOne (m : Offsets) (t : Option Nat) (offset : Int) (baseToken : Nat) : Offsets :=
  match t with
  | none => m
  | some t =>
    if t = baseToken then m
    else setEntry m t (.relative baseToken offset none)

/-- `setOffset`: install a relative entry for the given token(s). -/
def setOffset (m : Offsets) (token : TokenArg) (offset : Int) (baseToken : Nat) : Offsets :=
  match token with
  | .one t => setOffsetOne m t offset baseToken
  | .many ts => ts.foldl (fun acc t => setOffsetOne acc t offset baseToken) m

/-- `setOffsetBaseLine` on a single (possibly null) token: installs a
baseline entry with `expectedIndent: undefined`. -/
def setOffsetBaseLineOne (m : Offsets) (t : Option Nat) (offset : Int) : Offsets :=
  match t with
  | none => m
  | some t => setEntry m t (.baseline offset none)

/-- `setOffsetBaseLine`: install a baseline entry for the given token(s). -/
def setOffsetBaseLine (m : Offsets) (token : TokenArg) (offset : Int) : Offsets :=
  match token with
  | .one t => setOffsetBaseLineOne m t offset
  | .many ts => ts.foldl (fun acc t => setOffsetBaseLineOne acc t offset) m

/-- `copyOffset`: copy `srcToken`'s entry (relative or baseline) onto the
given token(s); a null single token or a missing source entry is a no-op. -/
def copyOffset (m : Offsets) (token : TokenArg) (srcToken : Nat) : Offsets :=
  match token with
  | .one none => m
  | _ =>
    match List.lookup srcToken m with
    | none => m
    | some (.relative base offset _) => setOffset m token offset base
    | some (.baseline offset _) => setOffsetBaseLine m token offset

/-- `getExpectedIndentFromToken`: resolve a token against the offset map.
No entry yields `null`; a cached value is returned as is; a baseline yields
`offset * indentSize`; a relative entry recursively resolves its base.  The
source recursion has no cycle guard, so the embedding takes explicit fuel. -/
def getExpectedIndentFromToken (opts : IndentOptions) (m : Offsets) :
    Nat → Nat → Option Int
  | 0, _ => none
  | fuel + 1, token =>
    match List.lookup token m with
    | none => none
    | some offsetInfo =>
      match cacheOf offsetInfo with
      | some v => some v
      | none =>
        match offsetInfo with
        | .baseline offset _ => some (offset * opts.indentSize)
        | .relative baseToken offset _ =>
          match getExpectedIndentFromToken opts m fuel baseToken with
          | none => none
          | some baseIndent => some (baseIndent + offset * opts.indentSize)

/-- `getExpectedIndentFromTokens`: scan the line's tokens in order; an
ignored token yields `null` immediately, otherwise the first token that
resolves provides the value. -/
def getExpectedIndentFromTokens (opts : IndentOptions) (m : Offsets) (ig : List Nat)
    (fuel : Nat) : List Token → Option Int
  | [] => none
  | token :: rest =>
    if token.id ∈ ig then none
    else
      match getExpectedIndentFromToken opts m fuel token.id with
      | some expectedIndent => some expectedIndent
      | none => getExpectedIndentFromTokens opts m ig fuel rest

/-- `offsetInfo.expectedIndent ??= expectedIndent`: set the cache only when
it is not already set. -/
def setCacheIfNone (e : OffsetEntry) (v : Int) : OffsetEntry :=
  match e with
  | .relative b o none => .relative b o (some v)
  | .baseline o none => .baseline o (some v)
  | e => e

/-- One step of `saveExpectedIndent`: tokens without an entry are skipped. -/
def saveTokenExpectedIndent (m : Offsets) (tid : Nat) (v : Int) : Offsets :=
  match List.lookup tid m with
  | none => m
  | some e => setEntry m tid (setCacheIfNone e v)

/-- `saveExpectedIndent`: first-write-wins caching of `v` on every given
token that has an offset entry. -/
def saveExpectedIndent (m : Offsets) (tokens : List Token) (v : Int) : Offsets :=
  tokens.foldl (fun acc t => saveTokenExpectedIndent acc t.id v) m

/-- The physical lines of the file (`sourceCode.lines`). -/
structure SourceFile where
  lines : List (List Char)
deriving DecidableEq

/-- `getIndentText`: the text of line `line` up to column `col`
(`sourceCode.lines[line - 1].slice(0, column)`). -/
def getIndentText (src : SourceFile) (line col : Nat) : List Char :=
  (src.lines.getD (line - 1) []).take col

/-- The two report message ids of the rule. -/
inductive DiagKind where
  | unexpectedIndentation
  | unexpectedChar
deriving DecidableEq

/-- A report together with its fix: location plus the replacement text the
fixer writes over `[start, end)` of that line. -/
structure Diagnostic where
  kind : DiagKind
  line : Nat
  startCol : Nat
  endCol : Nat
  fixRepl : List Char
deriving DecidableEq

/-- The character positions of the indent text that differ from the
configured indent character. -/
def mismatchCharIndexes (indentText : List Char) (indentChar : Char) : List Nat :=
  (List.range indentText.length).filter (fun i => indentText.getD i indentChar != indentChar)

/-- `validateToken`: skip when the leading region holds non-whitespace; on a
column-count mismatch report one width diagnostic over the whole span with a
fix of `indentChar.repeat(expectedIndent)` (the source's `String.repeat`
is only ever called with the non-negative counts the rule computes, hence
`Int.toNat`); otherwise report one character diagnostic per mismatching
position, each fixed by a single indent character. -/
def validateToken (opts : IndentOptions) (src : SourceFile) (token : Token)
    (expectedIndent : Int) : List Diagnostic :=
  let line := token.line
  let indentText := getIndentText src token.line token.col
  if indentText.any (fun c => !c.isWhitespace) then []
  else
    let actualIndent := token.col
    let mismatches := mismatchCharIndexes indentText opts.indentChar
    if (actualIndent : Int) ≠ expectedIndent then
      [⟨.unexpectedIndentation, line, 0, actualIndent,
        List.replicate expectedIndent.toNat opts.indentChar⟩]
    else
      mismatches.map (fun i => ⟨.unexpectedChar, line, i, i + 1, [opts.indentChar]⟩)

/-- `processLine`: resolve the group's expected indent; when unresolvable,
save the first token's actual column and skip.  Otherwise save the resolved
indent onto the group, validate the first deferred comment (when a previous
token ends on an earlier line), and validate the first token of the line
(when the previous token — the last deferred comment if any — ends on an
earlier line). -/
def processLine (opts : IndentOptions) (src : SourceFile) (fuel : Nat) (ig : List Nat)
    (offsets : Offsets) (tokens : List Token) (prevComments : List Token)
    (prevToken : Option Token) : Offsets × List Diagnostic :=
  match tokens with
  | [] => (offsets, [])
  | firstToken :: rest =>
    let actualIndent : Int := firstToken.col
    match getExpectedIndentFromTokens opts offsets ig fuel (firstToken :: rest) with
    | none => (saveExpectedIndent offsets (firstToken :: rest) actualIndent, [])
    | some expectedIndent =>
      let offsets1 := saveExpectedIndent offsets (firstToken :: rest) expectedIndent
      let commentDiags :=
        match prevComments, prevToken with
        | c :: _, some p =>
          if p.endLine < c.line then validateToken opts src c expectedIndent else []
        | _, _ => []
      let prev : Option Token :=
        match prevComments.getLast? with
        | some l => some l
        | none => prevToken
      let firstDiags :=
        match prev with
        | some p =>
          if p.endLine < firstToken.line then validateToken opts src firstToken expectedIndent
          else []
        | none => []
      (offsets1, commentDiags ++ firstDiags)

/-- A line group: the tokens of one physical line plus the deferred
comment tokens of the comment-only lines that preceded it. -/
structure LineGroup where
  prevComments : List Token
  tokens : List Token
deriving DecidableEq

/-- The loop of `iterateLineTokens`: buffer tokens of one physical line;
on a line change a comment-only buffer defers its first token into
`prevComments`, any other buffer is yielded as a group; a trailing
all-comment buffer is dropped. -/
def groupLoop (line : Nat) (prevComments : List Token) (bufferTokens : List Token) :
    List Token → List LineGroup
  | [] =>
    if bufferTokens.isEmpty then []
    else if bufferTokens.all (·.isComment) then []
    else [⟨prevComments, bufferTokens⟩]
  | token :: restStream =>
    if line = token.line ∨ bufferTokens.isEmpty then
      groupLoop token.line prevComments (bufferTokens ++ [token]) restStream
    else
      match bufferTokens with
      | [] => groupLoop token.line prevComments [token] restStream
      | b0 :: bs =>
        if b0.isComment ∧ (b0 :: bs).all (·.isComment) then
          groupLoop token.line (prevComments ++ [b0]) [token] restStream
        else
          ⟨prevComments, b0 :: bs⟩ :: groupLoop token.line [] [token] restStream

/-- `iterateLineTokens` over the whole-file token/comment stream. -/
def iterateLineTokens (stream : List Token) : List LineGroup :=
  groupLoop 0 [] [] stream

/-- The `Program:exit` loop: process each line group in order, threading the
offset map and the previous group's last token. -/
def processAllLines (opts : IndentOptions) (src : SourceFile) (fuel : Nat) (ig : List Nat) :
    Offsets → Option Token → List LineGroup → Offsets × List Diagnostic
  | offsets, _, [] => (offsets, [])
  | offsets, prevToken, g :: gs =>
    let r := processLine opts src fuel ig offsets g.tokens g.prevComments prevToken
    let rest := processAllLines opts src fuel ig r.1 g.tokens.getLast? gs
    (rest.1, r.2 ++ rest.2)

/-- A node as the engine sees it: its `type` string and the tokens of its
span as returned by `sourceCode.getTokens(node)` (which excludes comments). -/
structure NodeInfo where
  type : String
  tokens : List Token
deriving DecidableEq

/-- The mutable engine state captured by the visitor closures: the offset
map and the ignored-token set. -/
structure VisitorState where
  offsets : Offsets
  ignoreTokens : List Nat
deriving DecidableEq

/-- `ignore(node)`: add every token of the node's span to the ignore set. -/
def ignore (st : VisitorState) (node : NodeInfo) : VisitorState :=
  ⟨st.offsets, st.ignoreTokens ++ node.tokens.map (·.id)⟩

/-- The defensive `*:exit` handler: ignore the node when its type has no
handler in either visitor table. -/
def starExitHandler (knownNodes : List String) (st : VisitorState) (node : NodeInfo) :
    VisitorState :=
  if node.type ∈ knownNodes then st else ignore st node

/-- Modelled from the spec: one offset-graph mutation issued by a node
visitor during traversal.  The per-node visitor tables (`./es`, `./svelte`)
are not part of this repository's sources; per §4.2 each handler only calls
`setOffset`/`copyOffset`/`setOffsetBaseLine`/`ignore`, so a traversal is
modelled as the list of those calls. -/
inductive VisitorCmd where
  | set (token : TokenArg) (offset : Int) (baseToken : Nat)
  | copy (token : TokenArg) (srcToken : Nat)
  | setBase (token : TokenArg) (offset : Int)
  | ign (node : NodeInfo)
deriving DecidableEq

/-- Apply one visitor mutation to the engine state. -/
def applyCmd (st : VisitorState) (c : VisitorCmd) : VisitorState :=
  match c with
  | .set token offset baseToken =>
    ⟨setOffset st.offsets token offset baseToken, st.ignoreTokens⟩
  | .copy token srcToken => ⟨copyOffset st.offsets token srcToken, st.ignoreTokens⟩
  | .setBase token offset => ⟨setOffsetBaseLine st.offsets token offset, st.ignoreTokens⟩
  | .ign node => ignore st node

/-- The state after a traversal, starting from the fresh empty state that
`defineVisitor` allocates per file. -/
def runCmds (cmds : List VisitorCmd) : VisitorState :=
  cmds.foldl applyCmd ⟨[], []⟩

/-- JavaScript `s.endsWith(t)`, on the characters of the strings. -/
def endsWith (s t : List Char) : Bool :=
  t.isSuffixOf s

/-- The characters of the extension `".svelte"`. -/
def svelteExt : List Char :=
  ".svelte".toList

/-- The whole rule on one file: `defineVisitor` returns an empty handler
object for non-`.svelte` filenames; otherwise options are parsed, the
traversal (modelled by `cmds`) populates the state from fresh empty maps,
and `Program:exit` validates every line group. -/
def analyze (filename : List Char) (userOptions : IndentUserOptions)
    (defaultOptions : PartialIndentOptions) (src : SourceFile) (cmds : List VisitorCmd)
    (stream : List Token) (fuel : Nat) : List Diagnostic :=
  if endsWith filename svelteExt then
    let opts := parseOptions userOptions defaultOptions
    let st := runCmds cmds
    (processAllLines opts src fuel st.ignoreTokens st.offsets none
      (iterateLineTokens stream)).2
  else []

/-- Modelled from the spec (claim C1's words): a resolver that additionally
caches each value it computes on the resolved token's entry, returning the
updated offset map.  Compared below with `getExpectedIndentFromToken`,
which is translated from the source and performs no write. -/
def getExpectedIndentFromTokenSpec (opts : IndentOptions) :
    Nat → Offsets → Nat → Option Int × Offsets
  | 0, m, _ => (none, m)
  | fuel + 1, m, token =>
    match List.lookup token m with
    | none => (none, m)
    | some offsetInfo =>
      match cacheOf offsetInfo with
      | some v => (some v, m)
      | none =>
        match offsetInfo with
        | .baseline offset _ =>
          let v := offset * opts.indentSize
          (some v, setEntry m token (.baseline offset (some v)))
        | .relative baseToken offset _ =>
          match getExpectedIndentFromTokenSpec opts fuel m baseToken with
          | (none, m') => (none, m')
          | (some baseIndent, m') =>
            let v := baseIndent + offset * opts.indentSize
            (some v, setEntry m' token (.relative baseToken offset (some v)))

/-- No entry of the offset map is a relative entry whose base is its own key. -/
def entrySelfOk (k : Nat) (e : OffsetEntry) : Bool :=
  match e with
  | .relative b _ _ => b != k
  | .baseline _ _ => true

/-- The self-reference-freedom invariant of the offset map. -/
def noSelfRef (m : Offsets) : Bool :=
  m.all (fun p => entrySelfOk p.1 p.2)

/-! Concrete fixtures used by the counterexamples and witnesses below. -/

/-- Default options: two-space indent. -/
def opts0 : IndentOptions := ⟨' ', 2, 1, []⟩

/-- Empty user options. -/
def uo0 : IndentUserOptions := ⟨none, none, none⟩

/-- Empty per-rule default overrides. -/
def po0 : PartialIndentOptions := ⟨none, none, none, none⟩

/-- Token 2 relative (offset 1) to token 1, itself a baseline at level 2. -/
def m2 : Offsets := [(2, .relative 1 1 none), (1, .baseline 2 none)]

/-- Token 2 sitting alone on line 3 at column 6. -/
def tokC1 : Token := ⟨2, 3, 6, 3, false⟩

/-- A three-line file whose third line is indented by six spaces. -/
def srcC1 : SourceFile := ⟨[" a".toList, "".toList, "      b".toList]⟩

/-- Token 1 is a baseline at level 1. -/
def m3 : Offsets := [(1, .baseline 1 none)]

/-- First token of line 2, at column 3. -/
def tok1 : Token := ⟨1, 2, 3, 2, false⟩

/-- Second token of line 2, at column 6. -/
def tok2 : Token := ⟨2, 2, 6, 2, false⟩

/-- A previous token ending on line 1. -/
def p0 : Token := ⟨9, 1, 0, 1, false⟩

/-- A two-line file whose second line starts with three spaces. -/
def src2 : SourceFile := ⟨["x".toList, "   y  z".toList]⟩

/-- Two comments sharing line 1, then a code token on line 2. -/
def c1t : Token := ⟨11, 1, 2, 1, true⟩

/-- Second comment of line 1. -/
def c2t : Token := ⟨12, 1, 8, 1, true⟩

/-- Code token on line 2. -/
def t3t : Token := ⟨13, 2, 0, 2, false⟩

/-- A comment alone on line 1. -/
def d1 : Token := ⟨21, 1, 2, 1, true⟩

/-- A comment alone on line 2 (same column as the one on line 1). -/
def d2 : Token := ⟨22, 2, 2, 2, true⟩

/-- Code token on line 3 at column 0. -/
def d3 : Token := ⟨23, 3, 0, 3, false⟩

/-- A previous token ending before line 1. -/
def pB : Token := ⟨20, 0, 0, 0, false⟩

/-- Token 23 is a baseline at level 0. -/
def mB : Offsets := [(23, .baseline 0 none)]

/-- Three lines: two comment lines indented by two spaces, then code at column 0. -/
def srcB : SourceFile := ⟨["  /*a*/".toList, "  /*b*/".toList, "c".toList]⟩

/-- Token 2 is relative to token 1, which has no entry at all. -/
def m4 : Offsets := [(2, .relative 1 1 none)]

/-- Token 1 on line 1 at column 3. -/
def t1c4 : Token := ⟨1, 1, 3, 1, false⟩

/-- Token 1 relative to the entryless token 9; token 2 relative to token 1. -/
def m4b : Offsets := [(1, .relative 9 1 none), (2, .relative 1 1 none)]

/-- Token 1 is a baseline at level 0 with a cached expected indent of 3. -/
def m5 : Offsets := [(1, .baseline 0 (some 3))]

/-- A token belonging to the unrecognized node below. -/
def tokA : Token := ⟨7, 4, 2, 4, false⟩

/-- A node whose type has no handler in either visitor table. -/
def nodeA : NodeInfo := ⟨"SvelteWeird", [tokA]⟩


end SvelteIndent

namespace SvelteIndent

/-! Basic facts about association-list lookup and the map operations. -/

theorem lookup_mem {m : Offsets} {k : Nat} {v : OffsetEntry} :
    List.lookup k m = some v → (k, v) ∈ m := by
  induction m with
  | nil => intro h; simp [List.lookup] at h
  | cons p t ih =>
    intro h
    rcases p with ⟨a, b⟩
    by_cases hk : k = a
    · subst hk
      simp [List.lookup] at h
      simp [h]
    · simp only [List.lookup, beq_false_of_ne hk] at h
      exact List.mem_cons_of_mem _ (ih h)

theorem lookup_filter_ne {m : Offsets} {k k' : Nat} (h : k' ≠ k) :
    List.lookup k' (m.filter (fun p => p.1 != k)) = List.lookup k' m := by
  induction m with
  | nil => rfl
  | cons p t ih =>
    rcases p with ⟨a, b⟩
    by_cases hp : a = k
    · subst hp
      have h1 : (a != a) = false := by simp
      simp only [List.filter_cons, h1, List.lookup, beq_false_of_ne h]
      simp [ih]
    · have h1 : (a != k) = true := by simp [hp]
      simp only [List.filter_cons, h1, List.lookup]
      simp [ih]

theorem lookup_setEntry_self (m : Offsets) (k : Nat) (v : OffsetEntry) :
    List.lookup k (setEntry m k v) = some v := by
  simp [setEntry, List.lookup]

theorem lookup_setEntry_ne (m : Offsets) (k : Nat) (v : OffsetEntry) {k' : Nat}
    (h : k' ≠ k) : List.lookup k' (setEntry m k v) = List.lookup k' m := by
  rw [setEntry, List.lookup, beq_false_of_ne h]
  exact lookup_filter_ne h

/-! Facts about the first-write-wins cache writes of `saveExpectedIndent`. -/

theorem saveExpectedIndent_cons (m : Offsets) (t : Token) (ts : List Token) (w : Int) :
    saveExpectedIndent m (t :: ts) w =
      saveExpectedIndent (saveTokenExpectedIndent m t.id w) ts w := rfl

theorem setCacheIfNone_of_some {e : OffsetEntry} {v : Int} (h : cacheOf e = some v)
    (w : Int) : setCacheIfNone e w = e := by
  cases e with
  | relative b o c =>
    cases c with
    | none => simp [cacheOf] at h
    | some x => rfl
  | baseline o c =>
    cases c with
    | none => simp [cacheOf] at h
    | some x => rfl

theorem cacheOf_setCacheIfNone_of_none {e : OffsetEntry} (h : cacheOf e = none) (w : Int) :
    cacheOf (setCacheIfNone e w) = some w := by
  cases e with
  | relative b o c =>
    cases c with
    | none => rfl
    | some x => simp [cacheOf] at h
  | baseline o c =>
    cases c with
    | none => rfl
    | some x => simp [cacheOf] at h

theorem saveToken_preserves_cached {m : Offsets} {k : Nat} {e : OffsetEntry} {v : Int}
    (hl : List.lookup k m = some e) (hc : cacheOf e = some v) (tid : Nat) (w : Int) :
    List.lookup k (saveTokenExpectedIndent m tid w) = some e := by
  cases h2 : List.lookup tid m with
  | none => simp only [saveTokenExpectedIndent, h2]; exact hl
  | some e' =>
    simp only [saveTokenExpectedIndent, h2]
    by_cases hk : k = tid
    · subst hk
      rw [hl] at h2
      cases h2
      rw [lookup_setEntry_self, setCacheIfNone_of_some hc]
    · rw [lookup_setEntry_ne _ _ _ hk]
      exact hl

theorem saveToken_lookup_ne {m : Offsets} {k tid : Nat} (h : k ≠ tid) (w : Int) :
    List.lookup k (saveTokenExpectedIndent m tid w) = List.lookup k m := by
  cases h2 : List.lookup tid m with
  | none => simp only [saveTokenExpectedIndent, h2]
  | some e' =>
    simp only [saveTokenExpectedIndent, h2]
    exact lookup_setEntry_ne _ _ _ h

theorem save_preserves_cached {ts : List Token} {m : Offsets} {k : Nat} {e : OffsetEntry}
    {v : Int} (hl : List.lookup k m = some e) (hc : cacheOf e = some v) (w : Int) :
    List.lookup k (saveExpectedIndent m ts w) = some e := by
  induction ts generalizing m with
  | nil => exact hl
  | cons t ts ih =>
    rw [saveExpectedIndent_cons]
    exact ih (saveToken_preserves_cached hl hc t.id w)

theorem save_writes_uncached {ts : List Token} {m : Offsets} {tid : Nat} {e : OffsetEntry}
    (hmem : ∃ u ∈ ts, u.id = tid) (hl : List.lookup tid m = some e)
    (hc : cacheOf e = none) (w : Int) :
    List.lookup tid (saveExpectedIndent m ts w) = some (setCacheIfNone e w) := by
  induction ts generalizing m with
  | nil =>
    rcases hmem with ⟨u, hu, _⟩
    simp at hu
  | cons t ts ih =>
    rw [saveExpectedIndent_cons]
    by_cases ht : t.id = tid
    · have hstep : saveTokenExpectedIndent m t.id w = setEntry m tid (setCacheIfNone e w) := by
        rw [ht]
        simp only [saveTokenExpectedIndent, hl]
      rw [hstep]
      exact save_preserves_cached (lookup_setEntry_self m tid (setCacheIfNone e w))
        (cacheOf_setCacheIfNone_of_none hc w) w
    · rcases hmem with ⟨u, hu, hid⟩
      rcases List.mem_cons.mp hu with h1 | h1
      · exact absurd (h1 ▸ hid) ht
      · have hne : tid ≠ t.id := fun hh => ht hh.symm
        have hstep : List.lookup tid (saveTokenExpectedIndent m t.id w) = some e := by
          rw [saveToken_lookup_ne hne]
          exact hl
        exact ih ⟨u, h1, hid⟩ hstep

/-! Preservation of the self-reference-freedom invariant. -/

theorem noSelfRef_setEntry {m : Offsets} {k : Nat} {v : OffsetEntry}
    (hm : noSelfRef m = true) (hv : entrySelfOk k v = true) :
    noSelfRef (setEntry m k v) = true := by
  simp only [noSelfRef, List.all_eq_true] at hm ⊢
  intro p hp
  rcases List.mem_cons.mp hp with h | h
  · subst h; exact hv
  · exact hm p (List.mem_of_mem_filter h)

theorem entrySelfOk_setCacheIfNone (k : Nat) (e : OffsetEntry) (w : Int) :
    entrySelfOk k (setCacheIfNone e w) = entrySelfOk k e := by
  cases e with
  | relative b o c => cases c <;> rfl
  | baseline o c => cases c <;> rfl

theorem noSelfRef_setOffsetOne {m : Offsets} (hm : noSelfRef m = true)
    (t : Option Nat) (o : Int) (b : Nat) : noSelfRef (setOffsetOne m t o b) = true := by
  cases t with
  | none => exact hm
  | some t =>
    by_cases ht : t = b
    · simp only [setOffsetOne, ht, if_pos rfl]
      exact hm
    · simp only [setOffsetOne, if_neg ht]
      refine noSelfRef_setEntry hm ?_
      simp [entrySelfOk]
      exact fun hh => ht hh.symm

theorem noSelfRef_setOffset {m : Offsets} (hm : noSelfRef m = true)
    (arg : TokenArg) (o : Int) (b : Nat) : noSelfRef (setOffset m arg o b) = true := by
  cases arg with
  | one t => exact noSelfRef_setOffsetOne hm t o b
  | many ts =>
    induction ts generalizing m with
    | nil => exact hm
    | cons t ts ih => exact ih (noSelfRef_setOffsetOne hm t o b)

theorem noSelfRef_setOffsetBaseLineOne {m : Offsets} (hm : noSelfRef m = true)
    (t : Option Nat) (o : Int) : noSelfRef (setOffsetBaseLineOne m t o) = true := by
  cases t with
  | none => exact hm
  | some t => exact noSelfRef_setEntry hm rfl

theorem noSelfRef_setOffsetBaseLine {m : Offsets} (hm : noSelfRef m = true)
    (arg : TokenArg) (o : Int) : noSelfRef (setOffsetBaseLine m arg o) = true := by
  cases arg with
  | one t => exact noSelfRef_setOffsetBaseLineOne hm t o
  | many ts =>
    induction ts generalizing m with
    | nil => exact hm
    | cons t ts ih => exact ih (noSelfRef_setOffsetBaseLineOne hm t o)

theorem noSelfRef_copyOffset {m : Offsets} (hm : noSelfRef m = true)
    (arg : TokenArg) (s : Nat) : noSelfRef (copyOffset m arg s) = true := by
  cases arg with
  | one t =>
    cases t with
    | none => exact hm
    | some t =>
      cases h2 : List.lookup s m with
      | none => simp only [copyOffset, h2]; exact hm
      | some e =>
        cases e with
        | relative base o c =>
          simp only [copyOffset, h2]
          exact noSelfRef_setOffset hm _ o base
        | baseline o c =>
          simp only [copyOffset, h2]
          exact noSelfRef_setOffsetBaseLine hm _ o
  | many ts =>
    cases h2 : List.lookup s m with
    | none => simp only [copyOffset, h2]; exact hm
    | some e =>
      cases e with
      | relative base o c =>
        simp only [copyOffset, h2]
        exact noSelfRef_setOffset hm _ o base
      | baseline o c =>
        simp only [copyOffset, h2]
        exact noSelfRef_setOffsetBaseLine hm _ o

theorem noSelfRef_saveToken {m : Offsets} (hm : noSelfRef m = true) (tid : Nat) (w : Int) :
    noSelfRef (saveTokenExpectedIndent m tid w) = true := by
  cases h2 : List.lookup tid m with
  | none => simp only [saveTokenExpectedIndent, h2]; exact hm
  | some e =>
    simp only [saveTokenExpectedIndent, h2]
    refine noSelfRef_setEntry hm ?_
    rw [entrySelfOk_setCacheIfNone]
    have hmem := lookup_mem h2
    simp only [noSelfRef, List.all_eq_true] at hm
    exact hm (tid, e) hmem

theorem noSelfRef_save {m : Offsets} (hm : noSelfRef m = true) (ts : List Token) (w : Int) :
    noSelfRef (saveExpectedIndent m ts w) = true := by
  induction ts generalizing m with
  | nil => exact hm
  | cons t ts ih =>
    rw [saveExpectedIndent_cons]
    exact ih (noSelfRef_saveToken hm t.id w)

theorem noSelfRef_applyCmd {st : VisitorState} (hm : noSelfRef st.offsets = true)
    (c : VisitorCmd) : noSelfRef (applyCmd st c).offsets = true := by
  cases c with
  | set arg o b => exact noSelfRef_setOffset hm arg o b
  | copy arg s => exact noSelfRef_copyOffset hm arg s
  | setBase arg o => exact noSelfRef_setOffsetBaseLine hm arg o
  | ign node => exact hm

theorem noSelfRef_runCmds (cmds : List VisitorCmd) :
    noSelfRef (runCmds cmds).offsets = true := by
  have key : ∀ (l : List VisitorCmd) (st : VisitorState), noSelfRef st.offsets = true →
      noSelfRef (l.foldl applyCmd st).offsets = true := by
    intro l
    induction l with
    | nil => exact fun st h => h
    | cons c l ih =>
      intro st h
      exact ih _ (noSelfRef_applyCmd h c)
  exact key cmds ⟨[], []⟩ rfl

/-! Case equations of the resolver, and resolution/validation plumbing. -/

theorem resolve_none {opts : IndentOptions} {m : Offsets} {fuel t : Nat}
    (h : List.lookup t m = none) :
    getExpectedIndentFromToken opts m (fuel + 1) t = none := by
  simp [getExpectedIndentFromToken, h]

theorem resolve_cached {opts : IndentOptions} {m : Offsets} {fuel t : Nat} {e : OffsetEntry}
    {v : Int} (hl : List.lookup t m = some e) (hc : cacheOf e = some v) :
    getExpectedIndentFromToken opts m (fuel + 1) t = some v := by
  simp [getExpectedIndentFromToken, hl, hc]

theorem resolve_baseline {opts : IndentOptions} {m : Offsets} {fuel t : Nat} {o : Int}
    (hl : List.lookup t m = some (.baseline o none)) :
    getExpectedIndentFromToken opts m (fuel + 1) t = some (o * opts.indentSize) := by
  simp [getExpectedIndentFromToken, hl, cacheOf]

theorem resolve_relative {opts : IndentOptions} {m : Offsets} {fuel t : Nat} {b : Nat}
    {o : Int} (hl : List.lookup t m = some (.relative b o none)) :
    getExpectedIndentFromToken opts m (fuel + 1) t =
      (getExpectedIndentFromToken opts m fuel b).map (fun bi => bi + o * opts.indentSize) := by
  simp only [getExpectedIndentFromToken, hl, cacheOf]
  cases getExpectedIndentFromToken opts m fuel b <;> rfl

theorem scan_head_ignored (opts : IndentOptions) (m : Offsets) (fuel : Nat) {ig : List Nat}
    {t0 : Token} (ts : List Token) (h : t0.id ∈ ig) :
    getExpectedIndentFromTokens opts m ig fuel (t0 :: ts) = none := by
  simp [getExpectedIndentFromTokens, h]

theorem scan_ignored_before_resolution {opts : IndentOptions} {m : Offsets} {ig : List Nat}
    {fuel : Nat} : ∀ (pre : List Token) (t : Token) (rest : List Token), t.id ∈ ig →
    (∀ u ∈ pre, u.id ∉ ig ∧ getExpectedIndentFromToken opts m fuel u.id = none) →
    getExpectedIndentFromTokens opts m ig fuel (pre ++ t :: rest) = none := by
  intro pre
  induction pre with
  | nil =>
    intro t rest ht _
    simp [getExpectedIndentFromTokens, ht]
  | cons u pre ih =>
    intro t rest ht hall
    have hu := hall u (List.mem_cons_self u pre)
    simp only [List.cons_append, getExpectedIndentFromTokens]
    rw [if_neg hu.1, hu.2]
    exact ih t rest ht fun x hx => hall x (List.mem_cons_of_mem _ hx)

theorem validateToken_line {opts : IndentOptions} {src : SourceFile} {t : Token} {e : Int}
    {d : Diagnostic} (h : d ∈ validateToken opts src t e) : d.line = t.line := by
  simp only [validateToken] at h
  split at h
  · simp at h
  · split at h
    · have := List.mem_singleton.mp h
      subst this
      rfl
    · rcases List.mem_map.mp h with ⟨i, hi, rfl⟩
      rfl

theorem processLine_unresolved {opts : IndentOptions} {src : SourceFile} {fuel : Nat}
    {ig : List Nat} {m : Offsets} {t0 : Token} {ts pc : List Token} {prevTok : Option Token}
    (h : getExpectedIndentFromTokens opts m ig fuel (t0 :: ts) = none) :
    processLine opts src fuel ig m (t0 :: ts) pc prevTok =
      (saveExpectedIndent m (t0 :: ts) (t0.col : Int), []) := by
  simp only [processLine, h]

theorem processLine_resolved {opts : IndentOptions} {src : SourceFile} {fuel : Nat}
    {ig : List Nat} {m : Offsets} {t0 : Token} {ts pc : List Token} {prevTok : Option Token}
    {e : Int} (h : getExpectedIndentFromTokens opts m ig fuel (t0 :: ts) = some e) :
    processLine opts src fuel ig m (t0 :: ts) pc prevTok =
      (saveExpectedIndent m (t0 :: ts) e,
       (match pc, prevTok with
        | c :: _, some p => if p.endLine < c.line then validateToken opts src c e else []
        | _, _ => []) ++
       (match (match pc.getLast? with | some l => some l | none => prevTok) with
        | some p => if p.endLine < t0.line then validateToken opts src t0 e else []
        | none => [])) := by
  simp only [processLine, h]

theorem processLine_diag_line {opts : IndentOptions} {src : SourceFile} {fuel : Nat}
    {ig : List Nat} {m : Offsets} {tokens pc : List Token} {prevTok : Option Token}
    {d : Diagnostic} (h : d ∈ (processLine opts src fuel ig m tokens pc prevTok).2) :
    (∃ t0, tokens.head? = some t0 ∧ d.line = t0.line) ∨
    (∃ c0, pc.head? = some c0 ∧ d.line = c0.line) := by
  cases tokens with
  | nil => simp [processLine] at h
  | cons t0 ts =>
    cases hr : getExpectedIndentFromTokens opts m ig fuel (t0 :: ts) with
    | none => rw [processLine_unresolved hr] at h; simp at h
    | some e =>
      rw [processLine_resolved hr] at h
      rcases List.mem_append.mp h with h1 | h1
      · right
        cases pc with
        | nil => simp at h1
        | cons c0 pcs =>
          cases prevTok with
          | none => simp at h1
          | some p =>
            have h2 : d ∈ (if p.endLine < c0.line then validateToken opts src c0 e else []) :=
              h1
            by_cases hlt : p.endLine < c0.line
            · rw [if_pos hlt] at h2
              exact ⟨c0, rfl, validateToken_line h2⟩
            · rw [if_neg hlt] at h2
              simp at h2
      · left
        refine ⟨t0, rfl, ?_⟩
        rcases hg : (match pc.getLast? with
            | some l => some l
            | none => prevTok : Option Token) with _ | p
        · rw [hg] at h1
          simp at h1
        · rw [hg] at h1
          have h2 : d ∈ (if p.endLine < t0.line then validateToken opts src t0 e else []) := h1
          by_cases hlt : p.endLine < t0.line
          · rw [if_pos hlt] at h2
            exact validateToken_line h2
          · rw [if_neg hlt] at h2
            simp at h2

/-! Facts about the token stream walker. -/

theorem groupLoop_sameLine {l : Nat} : ∀ (cs : List Token), (∀ c ∈ cs, c.line = l) →
    ∀ (pc buf rest : List Token),
    groupLoop l pc buf (cs ++ rest) = groupLoop l pc (buf ++ cs) rest := by
  intro cs
  induction cs with
  | nil => intro _ pc buf rest; simp
  | cons c cs ih =>
    intro hcs pc buf rest
    have hc : c.line = l := hcs c (List.mem_cons_self c cs)
    simp only [List.cons_append, groupLoop]
    rw [if_pos (Or.inl hc.symm), hc]
    simp only [List.append_eq]
    rw [ih (fun x hx => hcs x (List.mem_cons_of_mem _ hx)) pc (buf ++ [c]) rest]
    simp

theorem groupLoop_comment_defer {line : Nat} {pc : List Token} {b0 : Token} {bs : List Token}
    (hc : (b0 :: bs).all (·.isComment) = true) {tok : Token} (hl : line ≠ tok.line)
    (rest : List Token) :
    groupLoop line pc (b0 :: bs) (tok :: rest) =
      groupLoop tok.line (pc ++ [b0]) [tok] rest := by
  have hb0 : b0.isComment = true := by
    simp [List.all_cons] at hc
    exact hc.1
  simp only [groupLoop]
  rw [if_neg (by simp [hl])]
  rw [if_pos ⟨hb0, hc⟩]

theorem iterate_comment_line_first {c0 : Token} {cs : List Token} {t : Token}
    (hall : (c0 :: cs).all (·.isComment) = true) (hline : ∀ c ∈ c0 :: cs, c.line = c0.line)
    (ht : t.line ≠ c0.line) (htc : t.isComment = false) :
    iterateLineTokens (c0 :: (cs ++ [t])) = [⟨[c0], [t]⟩] := by
  rw [iterateLineTokens]
  simp only [groupLoop]
  rw [if_pos (show (0 = c0.line ∨ ([] : List Token).isEmpty = true) from Or.inr rfl)]
  have step1 : groupLoop c0.line [] ([] ++ [c0]) (cs ++ [t]) =
      groupLoop c0.line [] ([c0] ++ cs) [t] :=
    groupLoop_sameLine cs (fun c hc => hline c (List.mem_cons_of_mem _ hc)) [] [c0] [t]
  rw [step1]
  simp only [List.singleton_append]
  rw [groupLoop_comment_defer hall (fun hh => ht hh.symm) []]
  simp [groupLoop, htc]

end SvelteIndent

namespace SvelteIndent

/-- C1 counterexample: the claim says the resolver itself caches computed values.
On the concrete map `m2` (token 2 relative to baseline token 1), both the source
resolver and the claim-faithful caching resolver compute 6 for token 2, and the
claim-faithful resolver leaves token 1's entry cached at 4 — but the source engine,
even after `processLine` fully processes the line containing token 2, leaves token
1's cache unset: `getExpectedIndentFromToken` performs no write at all, and
`saveExpectedIndent` caches only the line's own tokens. -/
theorem C1_resolver_caching_counterexample :
    getExpectedIndentFromToken opts0 m2 5 2 = some 6 ∧
    (getExpectedIndentFromTokenSpec opts0 5 m2 2).1 = some 6 ∧
    List.lookup 1 (getExpectedIndentFromTokenSpec opts0 5 m2 2).2 =
      some (.baseline 2 (some 4)) ∧
    List.lookup 1 (processLine opts0 srcC1 5 [] m2 [tokC1] [] none).1 =
      some (.baseline 2 none) ∧
    List.lookup 2 (processLine opts0 srcC1 5 [] m2 [tokC1] [] none).1 =
      some (.relative 1 1 (some 6)) := by
  decide

/-- C1 (amended): the resolver returns `null` for a token with no entry, the cached
value when one is set, `multiplier * indentUnitSize` for a baseline, and
`baseExpected + multiplier * indentUnitSize` for a relative entry (failing when the
base fails) — but it performs no caching itself.  Caching happens only through
`saveExpectedIndent`, which is first-write-wins: a set cache is never overwritten,
and an unset cache of a listed token is set to the saved value. -/
theorem C1_resolver_amended : ∀ (opts : IndentOptions) (m : Offsets) (fuel t : Nat),
    (List.lookup t m = none → getExpectedIndentFromToken opts m (fuel + 1) t = none) ∧
    (∀ e v, List.lookup t m = some e → cacheOf e = some v →
      getExpectedIndentFromToken opts m (fuel + 1) t = some v) ∧
    (∀ o, List.lookup t m = some (.baseline o none) →
      getExpectedIndentFromToken opts m (fuel + 1) t = some (o * opts.indentSize)) ∧
    (∀ b o, List.lookup t m = some (.relative b o none) →
      getExpectedIndentFromToken opts m (fuel + 1) t =
        (getExpectedIndentFromToken opts m fuel b).map (fun bi => bi + o * opts.indentSize)) ∧
    (∀ (ts : List Token) (w v : Int) (e : OffsetEntry), List.lookup t m = some e →
      cacheOf e = some v → List.lookup t (saveExpectedIndent m ts w) = some e) ∧
    (∀ (ts : List Token) (w : Int) (e : OffsetEntry), (∃ u ∈ ts, u.id = t) →
      List.lookup t m = some e → cacheOf e = none →
      List.lookup t (saveExpectedIndent m ts w) = some (setCacheIfNone e w)) := by
  intro opts m fuel t
  refine ⟨fun h => resolve_none h, fun e v hl hc => resolve_cached hl hc,
    fun o hl => resolve_baseline hl, fun b o hl => resolve_relative hl,
    fun ts w v e hl hc => save_preserves_cached hl hc w,
    fun ts w e hmem hl hc => save_writes_uncached hmem hl hc w⟩

/-- C1 witness: the amended theorem applied at the concrete map `m2`. -/
theorem C1_resolver_amended_witness :
    getExpectedIndentFromToken opts0 m2 5 1 = some 4 ∧
    List.lookup 2 (saveExpectedIndent m2 [tokC1] 6) =
      some (setCacheIfNone (.relative 1 1 none) 6) :=
  ⟨(C1_resolver_amended opts0 m2 4 1).2.2.1 2 (by decide),
   (C1_resolver_amended opts0 m2 4 2).2.2.2.2.2 [tokC1] 6 (.relative 1 1 none) (by decide)
     (by decide) (by decide)⟩

/-- C2 counterexample: token 2 of the line group is in the Ignore Registry, yet —
because token 1 resolves first — resolution does not yield unknown, and the line is
not skipped: a wrong-width diagnostic (with its fix) is issued for the line. -/
theorem C2_ignored_token_counterexample :
    tok2.id ∈ ([2] : List Nat) ∧
    getExpectedIndentFromTokens opts0 m3 [2] 5 [tok1, tok2] = some 2 ∧
    (processLine opts0 src2 5 [2] m3 [tok1, tok2] [] (some p0)).2 =
      [⟨.unexpectedIndentation, 2, 0, 3, [' ', ' ']⟩] := by
  decide

/-- C2 (amended): resolution scans the group's tokens in order and yields unknown
as soon as it meets an ignored token, provided every earlier token was not ignored
and failed to resolve; in that case — in particular whenever the group's first token
is ignored — the line is skipped entirely: no diagnostic, no fix, and the first
token's actual column is saved instead. -/
theorem C2_ignored_token_amended : ∀ (opts : IndentOptions) (m : Offsets) (ig : List Nat)
    (fuel : Nat) (pre : List Token) (t : Token) (rest : List Token),
    t.id ∈ ig →
    (∀ u ∈ pre, u.id ∉ ig ∧ getExpectedIndentFromToken opts m fuel u.id = none) →
    getExpectedIndentFromTokens opts m ig fuel (pre ++ t :: rest) = none ∧
    ∀ (src : SourceFile) (pc : List Token) (prevTok : Option Token) (t0 : Token)
      (ts : List Token), pre ++ t :: rest = t0 :: ts →
      processLine opts src fuel ig m (t0 :: ts) pc prevTok =
        (saveExpectedIndent m (t0 :: ts) (t0.col : Int), []) := by
  intro opts m ig fuel pre t rest ht hall
  have h1 := scan_ignored_before_resolution pre t rest ht hall
  refine ⟨h1, ?_⟩
  intro src pc prevTok t0 ts heq
  rw [heq] at h1
  exact processLine_unresolved h1

/-- C2 witness: the amended theorem applied to a group whose first token is ignored. -/
theorem C2_ignored_token_amended_witness :
    getExpectedIndentFromTokens opts0 m3 [2] 5 [tok2] = none ∧
    processLine opts0 src2 5 [2] m3 [tok2] [] none =
      (saveExpectedIndent m3 [tok2] (tok2.col : Int), []) := by
  have h := C2_ignored_token_amended opts0 m3 [2] 5 [] tok2 [] (by decide)
    (by intro u hu; simp at hu)
  exact ⟨h.1, h.2 src2 [] none tok2 [] rfl⟩

/-- C3: when the leading region is whitespace-only and the column count differs from
the expected indent, `validateToken` reports exactly one wrong-width diagnostic over
the whole leading-whitespace span whose fix is the indent character repeated
`expectedIndent` times; when the column differs every diagnostic is width-kind;
wrong-character diagnostics (one per mismatching position, each with a one-character
replacement) occur only when the column counts match; and a width diagnostic and a
character diagnostic are never both issued for one line. -/
theorem C3_width_char_exclusivity : ∀ (opts : IndentOptions) (src : SourceFile) (t : Token)
    (e : Int),
    ((getIndentText src t.line t.col).any (fun c => !c.isWhitespace) = false →
      (t.col : Int) ≠ e →
      validateToken opts src t e =
        [⟨.unexpectedIndentation, t.line, 0, t.col, List.replicate e.toNat opts.indentChar⟩]) ∧
    ((t.col : Int) ≠ e → ∀ d ∈ validateToken opts src t e,
      d.kind = DiagKind.unexpectedIndentation) ∧
    ((t.col : Int) = e → ∀ d ∈ validateToken opts src t e,
      ∃ i ∈ mismatchCharIndexes (getIndentText src t.line t.col) opts.indentChar,
        d = ⟨.unexpectedChar, t.line, i, i + 1, [opts.indentChar]⟩) ∧
    ((getIndentText src t.line t.col).any (fun c => !c.isWhitespace) = false →
      (t.col : Int) = e →
      validateToken opts src t e =
        (mismatchCharIndexes (getIndentText src t.line t.col) opts.indentChar).map
          (fun i => ⟨.unexpectedChar, t.line, i, i + 1, [opts.indentChar]⟩)) ∧
    ¬ ((validateToken opts src t e).any
        (fun d => d.kind == DiagKind.unexpectedIndentation) = true ∧
      (validateToken opts src t e).any (fun d => d.kind == DiagKind.unexpectedChar) = true) := by
  intro opts src t e
  have hvempty : (getIndentText src t.line t.col).any (fun c => !c.isWhitespace) = true →
      validateToken opts src t e = [] := by
    intro hguard
    simp [validateToken, hguard]
  have hvwidth : (getIndentText src t.line t.col).any (fun c => !c.isWhitespace) = false →
      (t.col : Int) ≠ e →
      validateToken opts src t e =
        [⟨.unexpectedIndentation, t.line, 0, t.col, List.replicate e.toNat opts.indentChar⟩] := by
    intro hguard hne
    simp [validateToken, hguard, hne]
  have hvchar : (getIndentText src t.line t.col).any (fun c => !c.isWhitespace) = false →
      (t.col : Int) = e →
      validateToken opts src t e =
        (mismatchCharIndexes (getIndentText src t.line t.col) opts.indentChar).map
          (fun i => ⟨.unexpectedChar, t.line, i, i + 1, [opts.indentChar]⟩) := by
    intro hguard he
    simp [validateToken, hguard, he]
  refine ⟨fun hw hne => hvwidth hw hne, ?_, ?_, fun hw he => hvchar hw he, ?_⟩
  · intro hne d hd
    cases hguard : (getIndentText src t.line t.col).any (fun c => !c.isWhitespace) with
    | true =>
      rw [hvempty hguard] at hd
      simp at hd
    | false =>
      rw [hvwidth hguard hne] at hd
      have := List.mem_singleton.mp hd
      subst this
      rfl
  · intro he d hd
    cases hguard : (getIndentText src t.line t.col).any (fun c => !c.isWhitespace) with
    | true =>
      rw [hvempty hguard] at hd
      simp at hd
    | false =>
      rw [hvchar hguard he] at hd
      rcases List.mem_map.mp hd with ⟨i, hi, rfl⟩
      exact ⟨i, hi, rfl⟩
  · intro hcon
    rcases hcon with ⟨hwidth, hchar⟩
    cases hguard : (getIndentText src t.line t.col).any (fun c => !c.isWhitespace) with
    | true =>
      rw [hvempty hguard] at hwidth
      simp at hwidth
    | false =>
      by_cases hne : (t.col : Int) ≠ e
      · rw [hvwidth hguard hne] at hchar
        simp at hchar
      · rw [not_not] at hne
        rw [hvchar hguard hne] at hwidth
        simp [List.any_map] at hwidth

/-- C3 witness: a token at column 3 with expected indent 2 gets exactly the single
wrong-width diagnostic, and never both kinds. -/
theorem C3_width_char_exclusivity_witness :
    validateToken opts0 src2 tok1 2 =
      [⟨.unexpectedIndentation, tok1.line, 0, tok1.col,
        List.replicate (2 : Int).toNat opts0.indentChar⟩] ∧
    ¬ ((validateToken opts0 src2 tok1 2).any
        (fun d => d.kind == DiagKind.unexpectedIndentation) = true ∧
      (validateToken opts0 src2 tok1 2).any (fun d => d.kind == DiagKind.unexpectedChar) =
        true) :=
  ⟨(C3_width_char_exclusivity opts0 src2 tok1 2).1 (by decide) (by decide),
   (C3_width_char_exclusivity opts0 src2 tok1 2).2.2.2.2⟩

/-- C4 counterexample: the group's only token (token 1) has no offset entry, so when
its line is unresolvable nothing at all is saved for it (`saveExpectedIndent` skips
entryless tokens), and token 2 — whose entry depends on token 1 — later resolves to
`null`, not to token 1's actual column of 3 (the claim would require `some 5`). -/
theorem C4_bootstrap_counterexample :
    List.lookup t1c4.id m4 = none ∧
    List.lookup 2 m4 = some (.relative t1c4.id 1 none) ∧
    processLine opts0 srcC1 5 [] m4 [t1c4] [] none = (m4, []) ∧
    getExpectedIndentFromToken opts0 (processLine opts0 srcC1 5 [] m4 [t1c4] [] none).1 5 2 =
      none := by
  decide

/-- C4 (amended): when a line group's expected indent is unresolvable the line is
skipped (no diagnostic, no fix), and the first token's actual column is saved,
first-write-wins, as the cached expected indent of every group token that has an
offset entry with no cached value yet; a token whose relative entry is based on such
a token then resolves to that actual column plus its own offset contribution. -/
theorem C4_unresolved_bootstrap_amended : ∀ (opts : IndentOptions) (src : SourceFile)
    (fuel : Nat) (ig : List Nat) (m : Offsets) (t0 : Token) (ts pc : List Token)
    (prevTok : Option Token),
    getExpectedIndentFromTokens opts m ig fuel (t0 :: ts) = none →
    (processLine opts src fuel ig m (t0 :: ts) pc prevTok).2 = [] ∧
    (processLine opts src fuel ig m (t0 :: ts) pc prevTok).1 =
      saveExpectedIndent m (t0 :: ts) (t0.col : Int) ∧
    (∀ u ∈ t0 :: ts, ∀ e, List.lookup u.id m = some e → cacheOf e = none →
      List.lookup u.id (processLine opts src fuel ig m (t0 :: ts) pc prevTok).1 =
        some (setCacheIfNone e (t0.col : Int))) ∧
    (∀ (x b : Nat) (o : Int) (eb : OffsetEntry) (f2 : Nat),
      List.lookup x (processLine opts src fuel ig m (t0 :: ts) pc prevTok).1 =
        some (.relative b o none) →
      (∃ u ∈ t0 :: ts, u.id = b) → List.lookup b m = some eb → cacheOf eb = none →
      getExpectedIndentFromToken opts
        (processLine opts src fuel ig m (t0 :: ts) pc prevTok).1 (f2 + 2) x =
        some ((t0.col : Int) + o * opts.indentSize)) := by
  intro opts src fuel ig m t0 ts pc prevTok h
  rw [processLine_unresolved h]
  refine ⟨rfl, rfl, ?_, ?_⟩
  · intro u hu e hl hc
    exact save_writes_uncached ⟨u, hu, rfl⟩ hl hc _
  · intro x b o eb f2 hx hmem hb hcb
    have hbsave : List.lookup b (saveExpectedIndent m (t0 :: ts) (t0.col : Int)) =
        some (setCacheIfNone eb (t0.col : Int)) := save_writes_uncached hmem hb hcb _
    have hc2 : cacheOf (setCacheIfNone eb (t0.col : Int)) = some (t0.col : Int) :=
      cacheOf_setCacheIfNone_of_none hcb _
    rw [show f2 + 2 = f2 + 1 + 1 from rfl, resolve_relative hx, resolve_cached hbsave hc2]
    rfl

/-- C4 witness: token 1's entry cannot reach a baseline, the line is skipped, and
token 2 (relative to token 1) afterwards resolves against token 1's actual column. -/
theorem C4_unresolved_bootstrap_amended_witness :
    (processLine opts0 srcC1 5 [] m4b [t1c4] [] none).2 = [] ∧
    getExpectedIndentFromToken opts0 (processLine opts0 srcC1 5 [] m4b [t1c4] [] none).1
      (3 + 2) 2 = some ((t1c4.col : Int) + 1 * opts0.indentSize) := by
  have h := C4_unresolved_bootstrap_amended opts0 srcC1 5 [] m4b t1c4 [] [] none (by decide)
  exact ⟨h.1, h.2.2.2 2 1 1 (.relative 9 1 none) 3 (by decide) (by decide) (by decide)
    (by decide)⟩

/-- C5 counterexample: (a) two comments share line 1 before code on line 2 — only
the first is deferred into the yielded group, not both; (b) two comment-only lines
precede code on line 3, and both comments are misindented (column 2 against expected
indent 0), yet the only diagnostic is on line 1: the second deferred comment is
never validated. -/
theorem C5_comment_defer_counterexample :
    iterateLineTokens [c1t, c2t, t3t] = [⟨[c1t], [t3t]⟩] ∧
    (⟨[c1t], [t3t]⟩ : LineGroup) ≠ ⟨[c1t, c2t], [t3t]⟩ ∧
    iterateLineTokens [d1, d2, d3] = [⟨[d1, d2], [d3]⟩] ∧
    (d2.line = 2 ∧ d2.col = 2) ∧
    (processLine opts0 srcB 5 [] mB [d3] [d1, d2] (some pB)).2 =
      [⟨.unexpectedIndentation, 1, 0, 2, []⟩] := by
  decide

/-- C5 (amended): when the line number changes and the buffered tokens of the
completed line are all comments, the first buffered token (only) is appended to the
pending previous-comments list rather than yielded, so the yielded LineGroup carries
one deferred comment per preceding comment-only line; and only the group's first
token or the first deferred comment is ever validated: every diagnostic of a line
group lies on one of those two tokens' lines. -/
theorem C5_comment_defer_amended :
    (∀ (line : Nat) (pc : List Token) (b0 : Token) (bs : List Token) (tok : Token)
      (rest : List Token), (b0 :: bs).all (·.isComment) = true → line ≠ tok.line →
      groupLoop line pc (b0 :: bs) (tok :: rest) =
        groupLoop tok.line (pc ++ [b0]) [tok] rest) ∧
    (∀ (c0 : Token) (cs : List Token) (t : Token), (c0 :: cs).all (·.isComment) = true →
      (∀ c ∈ c0 :: cs, c.line = c0.line) → t.line ≠ c0.line → t.isComment = false →
      iterateLineTokens (c0 :: (cs ++ [t])) = [⟨[c0], [t]⟩]) ∧
    (∀ (opts : IndentOptions) (src : SourceFile) (fuel : Nat) (ig : List Nat) (m : Offsets)
      (tokens pc : List Token) (prevTok : Option Token) (d : Diagnostic),
      d ∈ (processLine opts src fuel ig m tokens pc prevTok).2 →
      (∃ t0, tokens.head? = some t0 ∧ d.line = t0.line) ∨
      (∃ c0, pc.head? = some c0 ∧ d.line = c0.line)) := by
  refine ⟨?_, ?_, ?_⟩
  · intro line pc b0 bs tok rest hc hl
    exact groupLoop_comment_defer hc hl rest
  · intro c0 cs t hall hline ht htc
    exact iterate_comment_line_first hall hline ht htc
  · intro opts src fuel ig m tokens pc prevTok d hd
    exact processLine_diag_line hd

/-- C5 witness: the amended theorem applied to a concrete comment-only buffer and a
concrete emitted diagnostic. -/
theorem C5_comment_defer_amended_witness :
    groupLoop 1 [] [c1t, c2t] [t3t] = groupLoop t3t.line ([] ++ [c1t]) [t3t] [] ∧
    ((∃ t0, ([tok1, tok2] : List Token).head? = some t0 ∧
        (⟨.unexpectedIndentation, 2, 0, 3, [' ', ' ']⟩ : Diagnostic).line = t0.line) ∨
      (∃ c0, ([] : List Token).head? = some c0 ∧
        (⟨.unexpectedIndentation, 2, 0, 3, [' ', ' ']⟩ : Diagnostic).line = c0.line)) :=
  ⟨C5_comment_defer_amended.1 1 [] c1t [c2t] t3t [] (by decide) (by decide),
   C5_comment_defer_amended.2.2 opts0 src2 5 [2] m3 [tok1, tok2] [] (some p0)
     ⟨.unexpectedIndentation, 2, 0, 3, [' ', ' ']⟩ (by decide)⟩

/-- C6: `setOffset` silently skips a self-reference (`token == baseToken`) and
treats a null token as a no-op; every graph-mutation operation — `setOffset`,
`copyOffset`, `setOffsetBaseLine`, the visitor commands, and the cache writes of
`saveExpectedIndent` — preserves the invariant that no relative entry's base token
equals the token it is installed for; in particular any traversal from the fresh
empty state leaves the offset map free of self-references. -/
theorem C6_no_self_reference :
    (∀ (m : Offsets) (o : Int) (t : Nat), setOffset m (.one (some t)) o t = m) ∧
    (∀ (m : Offsets) (o : Int) (b : Nat), setOffset m (.one none) o b = m) ∧
    (∀ (st : VisitorState) (c : VisitorCmd), noSelfRef st.offsets = true →
      noSelfRef (applyCmd st c).offsets = true) ∧
    (∀ (m : Offsets) (ts : List Token) (v : Int), noSelfRef m = true →
      noSelfRef (saveExpectedIndent m ts v) = true) ∧
    (∀ cmds : List VisitorCmd, noSelfRef (runCmds cmds).offsets = true) := by
  refine ⟨?_, ?_, ?_, ?_, noSelfRef_runCmds⟩
  · intro m o t
    simp [setOffset, setOffsetOne]
  · intro m o b
    rfl
  · intro st c hm
    exact noSelfRef_applyCmd hm c
  · intro m ts v hm
    exact noSelfRef_save hm ts v

/-- C6 witness: the invariant theorem applied to concrete maps and command lists
(the second command tries to install a self-reference, which is skipped). -/
theorem C6_no_self_reference_witness :
    setOffset m5 (.one (some 4)) 1 4 = m5 ∧
    noSelfRef (applyCmd ⟨m5, []⟩ (.copy (.one (some 7)) 1)).offsets = true ∧
    noSelfRef (runCmds [.set (.one (some 1)) 1 2,
      .set (.one (some 2)) 1 2]).offsets = true :=
  ⟨C6_no_self_reference.1 m5 1 4,
   C6_no_self_reference.2.2.1 ⟨m5, []⟩ (.copy (.one (some 7)) 1) (by decide),
   C6_no_self_reference.2.2.2.2 _⟩

/-- C7: `ignore(node)` adds every token of the node's span to the Ignore Registry;
the defensive `*:exit` handler does so for every node whose type has no handler in
either visitor table; and a line group whose first token belongs to such a node's
span resolves to unknown and produces no diagnostic at all. -/
theorem C7_unknown_node_ignored :
    (∀ (st : VisitorState) (node : NodeInfo), ∀ tk ∈ node.tokens,
      tk.id ∈ (ignore st node).ignoreTokens) ∧
    (∀ (knownNodes : List String) (st : VisitorState) (node : NodeInfo),
      node.type ∉ knownNodes → ∀ tk ∈ node.tokens,
      tk.id ∈ (starExitHandler knownNodes st node).ignoreTokens) ∧
    (∀ (knownNodes : List String) (st : VisitorState) (node : NodeInfo)
      (opts : IndentOptions) (src : SourceFile) (fuel : Nat) (m : Offsets) (tk0 : Token)
      (rest pc : List Token) (prevTok : Option Token),
      node.type ∉ knownNodes → tk0 ∈ node.tokens →
      getExpectedIndentFromTokens opts m
        (starExitHandler knownNodes st node).ignoreTokens fuel (tk0 :: rest) = none ∧
      (processLine opts src fuel (starExitHandler knownNodes st node).ignoreTokens m
        (tk0 :: rest) pc prevTok).2 = []) := by
  have hmem : ∀ (st : VisitorState) (node : NodeInfo), ∀ tk ∈ node.tokens,
      tk.id ∈ (ignore st node).ignoreTokens := by
    intro st node tk htk
    exact List.mem_append_right _ (List.mem_map_of_mem _ htk)
  refine ⟨hmem, ?_, ?_⟩
  · intro kn st node hn tk htk
    simp only [starExitHandler, if_neg hn]
    exact hmem st node tk htk
  · intro kn st node opts src fuel m tk0 rest pc prevTok hn htk
    have hig : tk0.id ∈ (starExitHandler kn st node).ignoreTokens := by
      simp only [starExitHandler, if_neg hn]
      exact hmem st node tk0 htk
    have hres := scan_head_ignored opts m fuel rest hig
    refine ⟨hres, ?_⟩
    rw [processLine_unresolved hres]

/-- C7 witness: the unrecognized node's token lands in the Ignore Registry and its
line produces no diagnostics. -/
theorem C7_unknown_node_ignored_witness :
    tokA.id ∈ (starExitHandler ["Program"] ⟨[], []⟩ nodeA).ignoreTokens ∧
    (processLine opts0 src2 5 (starExitHandler ["Program"] ⟨[], []⟩ nodeA).ignoreTokens
      m3 [tokA] [] none).2 = [] :=
  ⟨C7_unknown_node_ignored.2.1 ["Program"] ⟨[], []⟩ nodeA (by decide) tokA (by decide),
   (C7_unknown_node_ignored.2.2 ["Program"] ⟨[], []⟩ nodeA opts0 src2 5 m3 tokA [] [] none
     (by decide) (by decide)).2⟩

/-- C8: the analysis is a pure function of the file name, options, file text,
traversal and token stream — two runs on equal inputs produce equal diagnostic (and
fix) sequences; every run starts from the fresh empty offset map and ignore set. -/
theorem C8_determinism : ∀ (f₁ f₂ : List Char) (u₁ u₂ : IndentUserOptions)
    (d₁ d₂ : PartialIndentOptions) (s₁ s₂ : SourceFile) (c₁ c₂ : List VisitorCmd)
    (tk₁ tk₂ : List Token) (fl₁ fl₂ : Nat),
    f₁ = f₂ → u₁ = u₂ → d₁ = d₂ → s₁ = s₂ → c₁ = c₂ → tk₁ = tk₂ → fl₁ = fl₂ →
    analyze f₁ u₁ d₁ s₁ c₁ tk₁ fl₁ = analyze f₂ u₂ d₂ s₂ c₂ tk₂ fl₂ := by
  intro f₁ f₂ u₁ u₂ d₁ d₂ s₁ s₂ c₁ c₂ tk₁ tk₂ fl₁ fl₂ hf hu hd hs hc htk hfl
  rw [hf, hu, hd, hs, hc, htk, hfl]

/-- C8 witness: two identical concrete runs agree. -/
theorem C8_determinism_witness :
    analyze ("a.svelte".toList) uo0 po0 src2 [] [tok1] 5 =
      analyze ("a.svelte".toList) uo0 po0 src2 [] [tok1] 5 :=
  C8_determinism _ _ _ _ _ _ _ _ _ _ _ _ _ _ rfl rfl rfl rfl rfl rfl rfl

/-- C9: for a filename that does not end in `.svelte` the rule is inert — no
diagnostics and no fixes regardless of content, traversal or options. -/
theorem C9_non_svelte_inert : ∀ (filename : List Char) (u : IndentUserOptions)
    (dflt : PartialIndentOptions) (s : SourceFile) (c : List VisitorCmd) (tk : List Token)
    (fl : Nat), endsWith filename svelteExt = false →
    analyze filename u dflt s c tk fl = [] := by
  intro filename u dflt s c tk fl h
  simp [analyze, h]

/-- C9 witness: a `.ts` filename yields no diagnostics even for a traversal that
installs offsets over a nonempty token stream. -/
theorem C9_non_svelte_inert_witness :
    analyze ("index.ts".toList) uo0 po0 src2 [.setBase (.one (some 1)) 1] [tok1] 5 = [] :=
  C9_non_svelte_inert _ uo0 po0 src2 _ [tok1] 5 (by decide)

/-- C10: `copyOffset` is a no-op when the source token has no offset entry — the
map is returned unchanged, so every existing entry (cache included) is preserved. -/
theorem C10_copyOffset_missing_source_noop : ∀ (m : Offsets) (token : TokenArg)
    (srcToken : Nat), List.lookup srcToken m = none → copyOffset m token srcToken = m := by
  intro m token srcToken h
  cases token with
  | one t =>
    cases t with
    | none => rfl
    | some t => simp only [copyOffset, h]
  | many ts => simp only [copyOffset, h]

/-- C10 witness: copying from the absent token 2 leaves the map — including token
1's cached entry — untouched. -/
theorem C10_copyOffset_missing_source_noop_witness :
    copyOffset m5 (.one (some 1)) 2 = m5 ∧
    List.lookup 1 m5 = some (.baseline 0 (some 3)) :=
  ⟨C10_copyOffset_missing_source_noop m5 (.one (some 1)) 2 (by decide), by decide⟩

end SvelteIndent
